import Mathlib

/-!
Shallow embedding of the pngme chunk model (src/chunk_type.rs, src/chunk.rs)
and of the file-level container.  Machine integers (`u8`, `u32`) are modelled
as `Nat` with explicit reductions modulo `2 ^ 8` / `2 ^ 32` where the source
truncates; byte buffers are `List Nat`; fallible Rust functions returning
`Result` are modelled with `Except`.
-/

set_option maxHeartbeats 1000000
set_option maxRecDepth 100000

/-- Error kinds raised by the chunk and container operations.  The source
propagates boxed string errors (`type Error = Box<dyn std::error::Error>` in
lib.rs); we classify each `Err` site by the message it carries, following the
taxonomy of the specification. -/
inductive Err where
  | unexpectedEof
  | lengthTooLong
  | invalidChunkType
  | expectedFourBytes
  | wrongLength
  | checksumMismatch (found expected : Nat)
  | signatureMismatch
  deriving DecidableEq

deriving instance DecidableEq for Except

/-- Constant `MAXIMUM_LENGTH` from src/chunk.rs: `(1 << 31) - 1`. -/
def MAXIMUM_LENGTH : Nat := 2 ^ 31 - 1

/-- One bit-level round of the reflected CRC-32 computation: shift right and
conditionally fold in the reversed IEEE polynomial `0xEDB88320`. -/
def crcRound (c : Nat) : Nat :=
  if c % 2 = 1 then (c / 2) ^^^ 0xEDB88320 else c / 2

/-- Feed one byte into the running CRC-32 state (eight bit rounds). -/
def crcByte (c b : Nat) : Nat :=
  crcRound^[8] (c ^^^ b % 2 ^ 8)

/-- Checksum `crc::crc32::checksum_ieee` from the `crc` crate used by src/chunk.rs:
CRC-32 with the IEEE polynomial, reflected, initial state `0xFFFFFFFF` and
final xor `0xFFFFFFFF`.  It reproduces the fixed test vector of the source
(`2882656334` for `"RuSt"` followed by the 42-byte test message). -/
def checksum_ieee (data : List Nat) : Nat :=
  (data.foldl crcByte 0xFFFFFFFF) ^^^ 0xFFFFFFFF

/-- Four-byte PNG chunk type code from src/chunk_type.rs.  The Rust field
`bytes: [u8; 4]` is modelled as a list of naturals; every value the program
builds has exactly four entries below `2 ^ 8`. -/
structure ChunkType where
  bytes : List Nat
  deriving DecidableEq

/-- Validity check `ChunkType::is_valid_bytes`: every byte must be an ASCII letter
(`u8::is_ascii_uppercase || u8::is_ascii_lowercase`). -/
def ChunkType.is_valid_bytes (bytes : List Nat) : Bool :=
  bytes.all fun b => (65 ≤ b && b ≤ 90) || (97 ≤ b && b ≤ 122)

/-- Conversion `TryFrom<[u8; 4]> for ChunkType` from src/chunk_type.rs. -/
def ChunkType.try_from (bytes : List Nat) : Except Err ChunkType :=
  if !ChunkType.is_valid_bytes bytes then .error .invalidChunkType
  else .ok ⟨bytes⟩

/-- Parsing `FromStr for ChunkType` from src/chunk_type.rs.  The input string is
modelled as its UTF-8 byte list, whose length is what `str::len` returns;
`str.as_bytes()[..4]` is `take 4`. -/
def ChunkType.from_str (s : List Nat) : Except Err ChunkType :=
  if s.length ≠ 4 then .error .expectedFourBytes
  else ChunkType.try_from (s.take 4)

/-- Predicate `ChunkType::is_reserved_bit_valid`: the reserved bit is the 5th
bit of the third byte and must be 0. -/
def ChunkType.is_reserved_bit_valid (t : ChunkType) : Bool :=
  t.bytes.getD 2 0 &&& (1 <<< 5) == 0

/-- Predicate `ChunkType::is_valid` from src/chunk_type.rs: delegates to the
reserved-bit predicate. -/
def ChunkType.is_valid (t : ChunkType) : Bool :=
  t.is_reserved_bit_valid

/-- Predicate `ChunkType::is_critical`: the ancillary bit is the 5th bit of the first
byte; indexing `self.bytes[0]` is modelled with `getD` (total on the 4-byte
values the program builds). -/
def ChunkType.is_critical (t : ChunkType) : Bool :=
  t.bytes.getD 0 0 &&& (1 <<< 5) == 0

/-- Predicate `ChunkType::is_public`: the private bit is the 5th bit of the second
byte. -/
def ChunkType.is_public (t : ChunkType) : Bool :=
  t.bytes.getD 1 0 &&& (1 <<< 5) == 0

/-- Predicate `ChunkType::is_safe_to_copy`: the copy bit is the 5th bit of the fourth
byte and must be 1. -/
def ChunkType.is_safe_to_copy (t : ChunkType) : Bool :=
  t.bytes.getD 3 0 &&& (1 <<< 5) != 0

/-- Encoding `u32::to_be_bytes`. -/
def u32_to_be_bytes (n : Nat) : List Nat :=
  [n / 2 ^ 24 % 2 ^ 8, n / 2 ^ 16 % 2 ^ 8, n / 2 ^ 8 % 2 ^ 8, n % 2 ^ 8]

/-- Decoding `u32::from_be_bytes`, applied to the four bytes a `read_exact` call just
produced (the wildcard tail never carries information at any call site). -/
def u32_from_be_bytes : List Nat → Nat
  | b0 :: b1 :: b2 :: b3 :: _ => b0 * 2 ^ 24 + b1 * 2 ^ 16 + b2 * 2 ^ 8 + b3
  | _ => 0

/-- PNG chunk record from src/chunk.rs. -/
structure Chunk where
  length : Nat
  chunk_type : ChunkType
  chunk_data : List Nat
  crc : Nat
  deriving DecidableEq

/-- Constructor `Chunk::new` from src/chunk.rs.  The cast `chunk_data.len() as u32` truncates the
payload size modulo `2 ^ 32`; the checksum is taken over the type bytes
concatenated with the payload. -/
def Chunk.new (chunk_type : ChunkType) (chunk_data : List Nat) : Chunk :=
  ⟨chunk_data.length % 2 ^ 32, chunk_type, chunk_data,
    checksum_ieee (chunk_type.bytes ++ chunk_data)⟩

/-- Serialization `Chunk::as_bytes`: big-endian length, type bytes, payload, big-endian
crc, in that order. -/
def Chunk.as_bytes (c : Chunk) : List Nat :=
  u32_to_be_bytes c.length ++ c.chunk_type.bytes ++ c.chunk_data ++
    u32_to_be_bytes c.crc

/-- Parser `TryFrom<&[u8]> for Chunk` from src/chunk.rs.  Each `read_exact` call of
`n` bytes is modelled by a length guard (failing with the end-of-input error
when fewer than `n` bytes remain) followed by `take n` / `drop n`; the
redundant length re-check of the source (lines 108-114, dead after a
successful `read_exact`) is kept. -/
def Chunk.try_from (bytes : List Nat) : Except Err Chunk :=
  if bytes.length < 4 then .error .unexpectedEof else
  let length := u32_from_be_bytes (bytes.take 4)
  if MAXIMUM_LENGTH < length then .error .lengthTooLong else
  let rest1 := bytes.drop 4
  if rest1.length < 4 then .error .unexpectedEof else
  match ChunkType.try_from (rest1.take 4) with
  | .error e => .error e
  | .ok chunk_type =>
    let rest2 := rest1.drop 4
    if rest2.length < length then .error .unexpectedEof else
    let chunk_data := rest2.take length
    if chunk_data.length ≠ length then .error .wrongLength else
    let rest3 := rest2.drop length
    if rest3.length < 4 then .error .unexpectedEof else
    let crc := u32_from_be_bytes (rest3.take 4)
    let expected_crc := checksum_ieee (chunk_type.bytes ++ chunk_data)
    if expected_crc ≠ crc then .error (.checksumMismatch crc expected_crc)
    else .ok ⟨length, chunk_type, chunk_data, crc⟩

/-- Modelled from the spec: the fixed 8-byte container signature (the PNG
magic).  The file png.rs is declared by lib.rs but is not among the sources;
the container definitions below follow spec sections 3, 4.3 and 6. -/
def PNG_SIGNATURE : List Nat := [137, 80, 78, 71, 13, 10, 26, 10]

/-- Modelled from the spec: the container is the fixed signature plus an
ordered sequence of chunks (png.rs is absent from the sources). -/
structure Png where
  chunks : List Chunk
  deriving DecidableEq

/-- Modelled from the spec: repeatedly invoke the chunk parser on the
remaining buffer, advancing the cursor by each chunk's total serialized size
(12 bytes of framing plus the payload), until the buffer is exhausted; any
chunk-level failure aborts the whole operation (png.rs is absent from the
sources). -/
def parseChunks (bytes : List Nat) : Except Err (List Chunk) :=
  if h : bytes.isEmpty then .ok []
  else
    match Chunk.try_from bytes with
    | .error e => .error e
    | .ok c =>
      match parseChunks (bytes.drop (12 + c.chunk_data.length)) with
      | .error e => .error e
      | .ok cs => .ok (c :: cs)
termination_by bytes.length
decreasing_by
  cases bytes with
  | nil => simp at h
  | cons x xs => simp

/-- Modelled from the spec: container parse validates the fixed 8-byte
signature first, then parses the chunk stream until exhausted (png.rs is
absent from the sources). -/
def Png.try_from (bytes : List Nat) : Except Err Png :=
  if bytes.take 8 ≠ PNG_SIGNATURE then .error .signatureMismatch
  else
    match parseChunks (bytes.drop 8) with
    | .error e => .error e
    | .ok cs => .ok ⟨cs⟩

/-- Modelled from the spec: container serialization is the fixed signature
followed by every chunk's `as_bytes` in sequence order (png.rs is absent from
the sources). -/
def Png.as_bytes (p : Png) : List Nat :=
  PNG_SIGNATURE ++ (p.chunks.map Chunk.as_bytes).flatten

/-! Helper lemmas about the byte codec and the checksum. -/

lemma u32_to_be_bytes_length (n : Nat) : (u32_to_be_bytes n).length = 4 := rfl

lemma u32_from_be_bytes_to_be_bytes {n : Nat} (h : n < 2 ^ 32) :
    u32_from_be_bytes (u32_to_be_bytes n) = n := by
  simp only [u32_to_be_bytes, u32_from_be_bytes]
  omega

lemma u32_to_be_bytes_getD_lt (n j : Nat) (hj : j < 4) :
    (u32_to_be_bytes n).getD j 0 < 2 ^ 8 := by
  interval_cases j <;> simp [u32_to_be_bytes] <;> omega

lemma crcRound_lt {c : Nat} (h : c < 2 ^ 32) : crcRound c < 2 ^ 32 := by
  unfold crcRound
  split
  · exact Nat.xor_lt_two_pow (by omega) (by norm_num)
  · omega

lemma crcIter_lt : ∀ (n : Nat) {c : Nat}, c < 2 ^ 32 → crcRound^[n] c < 2 ^ 32
  | 0, _, h => h
  | n + 1, _, h => by
      rw [Function.iterate_succ_apply]
      exact crcIter_lt n (crcRound_lt h)

lemma crcByte_lt {c : Nat} (b : Nat) (h : c < 2 ^ 32) : crcByte c b < 2 ^ 32 := by
  unfold crcByte
  exact crcIter_lt 8 (Nat.xor_lt_two_pow h (by omega))

lemma foldl_crcByte_lt : ∀ (l : List Nat) {c : Nat}, c < 2 ^ 32 →
    l.foldl crcByte c < 2 ^ 32
  | [], _, h => h
  | b :: l, _, h => foldl_crcByte_lt l (crcByte_lt b h)

lemma checksum_ieee_lt (l : List Nat) : checksum_ieee l < 2 ^ 32 := by
  unfold checksum_ieee
  exact Nat.xor_lt_two_pow (foldl_crcByte_lt l (by norm_num)) (by norm_num)

lemma ChunkType.try_from_of_valid {bs : List Nat}
    (hv : ChunkType.is_valid_bytes bs = true) :
    ChunkType.try_from bs = .ok ⟨bs⟩ := by
  simp [ChunkType.try_from, hv]

/-- Parsing a serialized chunk frame (big-endian length, valid type bytes,
payload, then any four bytes standing for the crc field) followed by
arbitrary residual bytes: the parser consumes exactly the four fields and
then compares the declared crc with the recomputed checksum. -/
lemma Chunk.try_from_frame_gen (tb d cr g : List Nat)
    (h4 : tb.length = 4) (hv : ChunkType.is_valid_bytes tb = true)
    (hd : d.length ≤ MAXIMUM_LENGTH) (hcr : cr.length = 4) :
    Chunk.try_from
        (u32_to_be_bytes d.length ++ (tb ++ (d ++ (cr ++ g)))) =
      if checksum_ieee (tb ++ d) = u32_from_be_bytes cr then
        .ok ⟨d.length, ⟨tb⟩, d, u32_from_be_bytes cr⟩
      else
        .error (.checksumMismatch (u32_from_be_bytes cr)
          (checksum_ieee (tb ++ d))) := by
  have hdlt : d.length < 2 ^ 32 := by
    unfold MAXIMUM_LENGTH at hd; omega
  have e1 : (u32_to_be_bytes d.length ++
      (tb ++ (d ++ (cr ++ g)))).take 4 = u32_to_be_bytes d.length :=
    List.take_left' (u32_to_be_bytes_length _)
  have e2 : (u32_to_be_bytes d.length ++
      (tb ++ (d ++ (cr ++ g)))).drop 4 =
      tb ++ (d ++ (cr ++ g)) :=
    List.drop_left' (u32_to_be_bytes_length _)
  have e3 : (tb ++ (d ++ (cr ++ g))).take 4 = tb :=
    List.take_left' h4
  have e4 : (tb ++ (d ++ (cr ++ g))).drop 4 =
      d ++ (cr ++ g) :=
    List.drop_left' h4
  have e5 : (d ++ (cr ++ g)).take d.length = d :=
    List.take_left' rfl
  have e6 : (d ++ (cr ++ g)).drop d.length = cr ++ g :=
    List.drop_left' rfl
  have e7 : (cr ++ g).take 4 = cr :=
    List.take_left' hcr
  simp only [Chunk.try_from, e1, e2, e3, e4, u32_from_be_bytes_to_be_bytes hdlt,
    ChunkType.try_from_of_valid hv, e5, e6, e7]
  rw [if_neg (by simp [u32_to_be_bytes])]
  rw [if_neg (by omega)]
  rw [if_neg (by simp [List.length_append, h4])]
  rw [if_neg (by simp [List.length_append])]
  rw [if_neg (by simp [e5])]
  rw [if_neg (by simp [List.length_append, hcr])]
  by_cases hck : checksum_ieee (tb ++ d) = u32_from_be_bytes cr
  · rw [if_neg (by simp [hck]), if_pos hck]
  · rw [if_pos (by simpa using hck), if_neg hck]

/-- Specialization of the frame lemma to a crc field that carries an actual
32-bit value in big-endian form. -/
lemma Chunk.try_from_frame (tb d g : List Nat) (crcv : Nat)
    (h4 : tb.length = 4) (hv : ChunkType.is_valid_bytes tb = true)
    (hd : d.length ≤ MAXIMUM_LENGTH) (hc : crcv < 2 ^ 32) :
    Chunk.try_from
        (u32_to_be_bytes d.length ++ (tb ++ (d ++ (u32_to_be_bytes crcv ++ g)))) =
      if checksum_ieee (tb ++ d) = crcv then
        .ok ⟨d.length, ⟨tb⟩, d, crcv⟩
      else
        .error (.checksumMismatch crcv (checksum_ieee (tb ++ d))) := by
  have h := Chunk.try_from_frame_gen tb d (u32_to_be_bytes crcv) g h4 hv hd
    (u32_to_be_bytes_length _)
  rwa [u32_from_be_bytes_to_be_bytes hc] at h

lemma list_getD_append_right (l₁ l₂ : List Nat) (j dflt : Nat) :
    (l₁ ++ l₂).getD (l₁.length + j) dflt = l₂.getD j dflt := by
  simp [List.getD, List.getElem?_append_right]

lemma list_set_append_right (l₁ l₂ : List Nat) (j v : Nat) :
    (l₁ ++ l₂).set (l₁.length + j) v = l₁ ++ l₂.set j v := by
  induction l₁ with
  | nil => simp
  | cons a l ih => simp [List.set, Nat.succ_add, ih]

lemma xor_two_pow_ne (a k : Nat) : a ^^^ 2 ^ k ≠ a := by
  intro h
  have hbit := congrArg (fun m => m.testBit k) h
  simp [Nat.testBit_xor, Nat.testBit_two_pow_self] at hbit

/-- Overwriting one byte of a big-endian 32-bit encoding with a different
byte value changes the decoded value. -/
lemma u32_from_be_bytes_set_ne {n j newb : Nat} (hj : j < 4)
    (hb : newb < 2 ^ 8) (hne : newb ≠ (u32_to_be_bytes n).getD j 0) :
    u32_from_be_bytes ((u32_to_be_bytes n).set j newb) ≠ n := by
  interval_cases j <;>
    simp [u32_to_be_bytes, u32_from_be_bytes, List.set] at hne ⊢ <;>
    omega

/-- C1 (amended with the length bound that `MAXIMUM_LENGTH` forces): for
every chunk type (a 4-byte ASCII-letter code, the invariant every Rust
`ChunkType` value carries) and every payload of at most `2 ^ 31 - 1` bytes,
parsing the serialization of a freshly built chunk succeeds and preserves
its fields, and flipping any single bit inside the 4-byte crc field of that
serialization makes parsing fail with a checksum-mismatch error. -/
theorem chunk_roundtrip_and_crc_flip (t : ChunkType) (d : List Nat)
    (h4 : t.bytes.length = 4) (hv : ChunkType.is_valid_bytes t.bytes = true)
    (hd : d.length ≤ 2 ^ 31 - 1) :
    Chunk.try_from (Chunk.new t d).as_bytes = .ok (Chunk.new t d) ∧
    ∀ j k, j < 4 → k < 8 →
      ∃ found expected,
        Chunk.try_from ((Chunk.new t d).as_bytes.set (8 + d.length + j)
            (((Chunk.new t d).as_bytes.getD (8 + d.length + j) 0) ^^^ 2 ^ k)) =
          .error (.checksumMismatch found expected) ∧ found ≠ expected := by
  have hdm : d.length % 4294967296 = d.length := Nat.mod_eq_of_lt (by omega)
  have hdMAX : d.length ≤ MAXIMUM_LENGTH := by unfold MAXIMUM_LENGTH; omega
  have hA : (Chunk.new t d).as_bytes =
      u32_to_be_bytes d.length ++
        (t.bytes ++ (d ++ (u32_to_be_bytes (checksum_ieee (t.bytes ++ d)) ++ []))) := by
    simp [Chunk.new, Chunk.as_bytes, hdm, List.append_assoc]
  constructor
  · have hfr := Chunk.try_from_frame t.bytes d [] (checksum_ieee (t.bytes ++ d))
      h4 hv hdMAX (checksum_ieee_lt _)
    rw [hA, hfr, if_pos rfl]
    simp [Chunk.new, hdm]
  · intro j k hj hk
    have hP : (u32_to_be_bytes d.length ++ t.bytes ++ d).length = 8 + d.length := by
      simp [List.length_append, h4, u32_to_be_bytes_length]
      omega
    have hA2 : (Chunk.new t d).as_bytes =
        (u32_to_be_bytes d.length ++ t.bytes ++ d) ++
          u32_to_be_bytes (checksum_ieee (t.bytes ++ d)) := by
      simp [Chunk.new, Chunk.as_bytes, hdm, List.append_assoc]
    have hgetD : (Chunk.new t d).as_bytes.getD (8 + d.length + j) 0 =
        (u32_to_be_bytes (checksum_ieee (t.bytes ++ d))).getD j 0 := by
      rw [hA2, ← hP, list_getD_append_right]
    have hset : (Chunk.new t d).as_bytes.set (8 + d.length + j)
          (((Chunk.new t d).as_bytes.getD (8 + d.length + j) 0) ^^^ 2 ^ k) =
        (u32_to_be_bytes d.length ++ t.bytes ++ d) ++
          (u32_to_be_bytes (checksum_ieee (t.bytes ++ d))).set j
            ((u32_to_be_bytes (checksum_ieee (t.bytes ++ d))).getD j 0 ^^^ 2 ^ k) := by
      rw [hgetD, hA2, ← hP, list_set_append_right]
    have hcr4 : ((u32_to_be_bytes (checksum_ieee (t.bytes ++ d))).set j
        ((u32_to_be_bytes (checksum_ieee (t.bytes ++ d))).getD j 0 ^^^ 2 ^ k)).length = 4 := by
      simp [u32_to_be_bytes]
    have hblt : (u32_to_be_bytes (checksum_ieee (t.bytes ++ d))).getD j 0 ^^^ 2 ^ k
        < 2 ^ 8 :=
      Nat.xor_lt_two_pow (u32_to_be_bytes_getD_lt _ j hj)
        (Nat.pow_lt_pow_right (by norm_num) hk)
    have hRne : u32_from_be_bytes ((u32_to_be_bytes (checksum_ieee (t.bytes ++ d))).set j
          ((u32_to_be_bytes (checksum_ieee (t.bytes ++ d))).getD j 0 ^^^ 2 ^ k)) ≠
        checksum_ieee (t.bytes ++ d) :=
      u32_from_be_bytes_set_ne hj hblt (xor_two_pow_ne _ k)
    have hfr2 := Chunk.try_from_frame_gen t.bytes d
      ((u32_to_be_bytes (checksum_ieee (t.bytes ++ d))).set j
        ((u32_to_be_bytes (checksum_ieee (t.bytes ++ d))).getD j 0 ^^^ 2 ^ k)) []
      h4 hv hdMAX hcr4
    rw [if_neg (fun hcontra => hRne hcontra.symm)] at hfr2
    refine ⟨_, _, ?_, hRne⟩
    rw [hset]
    rw [show (u32_to_be_bytes d.length ++ t.bytes ++ d) ++
          (u32_to_be_bytes (checksum_ieee (t.bytes ++ d))).set j
            ((u32_to_be_bytes (checksum_ieee (t.bytes ++ d))).getD j 0 ^^^ 2 ^ k) =
        u32_to_be_bytes d.length ++ (t.bytes ++ (d ++
          ((u32_to_be_bytes (checksum_ieee (t.bytes ++ d))).set j
            ((u32_to_be_bytes (checksum_ieee (t.bytes ++ d))).getD j 0 ^^^ 2 ^ k) ++ [])))
      from by simp [List.append_assoc]]
    exact hfr2

/-- Right-associated view of the serialization, convenient for prefix
reasoning. -/
lemma Chunk.as_bytes_assoc (c : Chunk) :
    c.as_bytes = u32_to_be_bytes c.length ++
      (c.chunk_type.bytes ++ (c.chunk_data ++ (u32_to_be_bytes c.crc ++ []))) := by
  simp [Chunk.as_bytes, List.append_assoc]

/-- A buffer whose first four bytes encode a length above `MAXIMUM_LENGTH`
is rejected no matter what follows. -/
lemma Chunk.try_from_too_long (L : Nat) (X : List Nat)
    (hL : MAXIMUM_LENGTH < L) (hlt : L < 2 ^ 32) :
    Chunk.try_from (u32_to_be_bytes L ++ X) = .error .lengthTooLong := by
  have e1 : (u32_to_be_bytes L ++ X).take 4 = u32_to_be_bytes L :=
    List.take_left' (u32_to_be_bytes_length _)
  simp only [Chunk.try_from, e1, u32_from_be_bytes_to_be_bytes hlt]
  rw [if_neg (by simp [u32_to_be_bytes])]
  rw [if_pos hL]

/-- Projection of the freshly built chunk, usable without reducing the
payload argument. -/
lemma Chunk.length_new (t : ChunkType) (d : List Nat) :
    (Chunk.new t d).length = d.length % 2 ^ 32 := rfl

/-- C1 counterexample: with a payload of `2 ^ 31` bytes, `Chunk::new`
succeeds but parsing its serialization fails with the length error, so the
unrestricted round-trip statement is false at this input. -/
theorem chunk_roundtrip_counterexample :
    Chunk.try_from (Chunk.new ⟨[82, 117, 83, 116]⟩
        (List.replicate (2 ^ 31) 0)).as_bytes = .error .lengthTooLong := by
  have hlen : (Chunk.new ⟨[82, 117, 83, 116]⟩
      (List.replicate (2 ^ 31) 0)).length = 2 ^ 31 := by
    rw [Chunk.length_new, List.length_replicate]
    omega
  rw [Chunk.as_bytes_assoc, hlen]
  exact Chunk.try_from_too_long _ _ (by unfold MAXIMUM_LENGTH; norm_num)
    (by norm_num)

/-- Witness for C1 at the type `"RuSt"` and payload `[7]`. -/
theorem chunk_roundtrip_and_crc_flip_witness :
    (([82, 117, 83, 116] : List Nat).length = 4 ∧
      ChunkType.is_valid_bytes [82, 117, 83, 116] = true ∧
      ([7] : List Nat).length ≤ 2 ^ 31 - 1) ∧
    (Chunk.try_from (Chunk.new ⟨[82, 117, 83, 116]⟩ [7]).as_bytes =
        .ok (Chunk.new ⟨[82, 117, 83, 116]⟩ [7]) ∧
      ∀ j k, j < 4 → k < 8 →
        ∃ found expected,
          Chunk.try_from ((Chunk.new ⟨[82, 117, 83, 116]⟩ [7]).as_bytes.set
              (8 + ([7] : List Nat).length + j)
              (((Chunk.new ⟨[82, 117, 83, 116]⟩ [7]).as_bytes.getD
                (8 + ([7] : List Nat).length + j) 0) ^^^ 2 ^ k)) =
            .error (.checksumMismatch found expected) ∧ found ≠ expected) :=
  ⟨⟨rfl, by decide, by norm_num⟩,
    chunk_roundtrip_and_crc_flip ⟨[82, 117, 83, 116]⟩ [7] rfl (by decide)
      (by norm_num)⟩

/-- C3: every buffer whose first four bytes decode (big-endian) to `2 ^ 31`
or more is rejected with the length error, whatever the rest of the buffer
holds — the failure happens before the type bytes or any payload byte is
examined. -/
theorem length_bound_rejected_early (b0 b1 b2 b3 : Nat) (rest : List Nat)
    (h : 2 ^ 31 ≤ u32_from_be_bytes [b0, b1, b2, b3]) :
    Chunk.try_from (b0 :: b1 :: b2 :: b3 :: rest) = .error .lengthTooLong := by
  have ht : (b0 :: b1 :: b2 :: b3 :: rest).take 4 = [b0, b1, b2, b3] := rfl
  simp only [Chunk.try_from, ht]
  rw [if_neg (by simp)]
  rw [if_pos (by unfold MAXIMUM_LENGTH; omega)]

/-- Witness for C3 at the buffer `[128, 0, 0, 0]`. -/
theorem length_bound_rejected_early_witness :
    2 ^ 31 ≤ u32_from_be_bytes [128, 0, 0, 0] ∧
    Chunk.try_from [128, 0, 0, 0] = .error .lengthTooLong :=
  ⟨by decide, length_bound_rejected_early 128 0 0 0 [] (by decide)⟩

/-- C9: `Chunk::new` never validates the payload size.  Its length field is
the payload size modulo `2 ^ 32`; between `2 ^ 31` and `2 ^ 32 - 1` bytes the
serialization of the freshly built chunk is rejected by the parser with the
length error, and from `2 ^ 32` bytes on the stored length differs from the
actual payload size. -/
theorem chunk_new_no_validation (t : ChunkType) (d : List Nat) :
    (Chunk.new t d).length = d.length % 2 ^ 32 ∧
    (2 ^ 31 ≤ d.length → d.length < 2 ^ 32 →
      Chunk.try_from (Chunk.new t d).as_bytes = .error .lengthTooLong) ∧
    (2 ^ 32 ≤ d.length → (Chunk.new t d).length ≠ d.length) := by
  refine ⟨rfl, ?_, ?_⟩
  · intro h1 h2
    have hlen : (Chunk.new t d).length = d.length := by
      simp [Chunk.new]
      omega
    rw [Chunk.as_bytes_assoc, hlen]
    exact Chunk.try_from_too_long _ _ (by unfold MAXIMUM_LENGTH; omega) h2
  · intro h1
    simp [Chunk.new]
    omega

/-- Witness for C9 at payloads of `2 ^ 31` and `2 ^ 32` zero bytes. -/
theorem chunk_new_no_validation_witness :
    (2 ^ 31 ≤ (List.replicate (2 ^ 31) (0 : Nat)).length ∧
      (List.replicate (2 ^ 31) (0 : Nat)).length < 2 ^ 32 ∧
      Chunk.try_from (Chunk.new ⟨[82, 117, 83, 116]⟩
          (List.replicate (2 ^ 31) 0)).as_bytes = .error .lengthTooLong) ∧
    (2 ^ 32 ≤ (List.replicate (2 ^ 32) (0 : Nat)).length ∧
      (Chunk.new ⟨[82, 117, 83, 116]⟩ (List.replicate (2 ^ 32) 0)).length ≠
        (List.replicate (2 ^ 32) (0 : Nat)).length) :=
  ⟨⟨by simp only [List.length_replicate]; omega, by simp only [List.length_replicate]; omega,
      (chunk_new_no_validation ⟨[82, 117, 83, 116]⟩
        (List.replicate (2 ^ 31) 0)).2.1 (by simp only [List.length_replicate]; omega)
        (by simp only [List.length_replicate]; omega)⟩,
    ⟨by simp only [List.length_replicate]; omega,
      (chunk_new_no_validation ⟨[82, 117, 83, 116]⟩
        (List.replicate (2 ^ 32) 0)).2.2 (by simp only [List.length_replicate]; omega)⟩⟩

/-- C10: the parser consumes only the leading `12 + length` bytes: a buffer
beginning with a well-formed serialized chunk parses to that chunk no matter
what bytes are appended after it. -/
theorem trailing_garbage_ignored (t : ChunkType) (d extra : List Nat)
    (h4 : t.bytes.length = 4) (hv : ChunkType.is_valid_bytes t.bytes = true)
    (hd : d.length ≤ MAXIMUM_LENGTH) :
    Chunk.try_from (u32_to_be_bytes d.length ++ t.bytes ++ d ++
        u32_to_be_bytes (checksum_ieee (t.bytes ++ d)) ++ extra) =
      .ok ⟨d.length, t, d, checksum_ieee (t.bytes ++ d)⟩ := by
  have hfr := Chunk.try_from_frame t.bytes d extra (checksum_ieee (t.bytes ++ d))
    h4 hv hd (checksum_ieee_lt _)
  rw [if_pos rfl] at hfr
  rw [show u32_to_be_bytes d.length ++ t.bytes ++ d ++
        u32_to_be_bytes (checksum_ieee (t.bytes ++ d)) ++ extra =
      u32_to_be_bytes d.length ++ (t.bytes ++ (d ++
        (u32_to_be_bytes (checksum_ieee (t.bytes ++ d)) ++ extra)))
    from by simp [List.append_assoc]]
  rw [hfr]

/-- Witness for C10 at the type `"RuSt"`, payload `[7]` and three bytes of
trailing garbage. -/
theorem trailing_garbage_ignored_witness :
    (([82, 117, 83, 116] : List Nat).length = 4 ∧
      ChunkType.is_valid_bytes [82, 117, 83, 116] = true ∧
      ([7] : List Nat).length ≤ MAXIMUM_LENGTH) ∧
    Chunk.try_from (u32_to_be_bytes ([7] : List Nat).length ++ [82, 117, 83, 116] ++ [7] ++
        u32_to_be_bytes (checksum_ieee ([82, 117, 83, 116] ++ [7])) ++ [1, 2, 3]) =
      .ok ⟨([7] : List Nat).length, ⟨[82, 117, 83, 116]⟩, [7],
        checksum_ieee ([82, 117, 83, 116] ++ [7])⟩ :=
  ⟨⟨rfl, by decide, by decide⟩,
    trailing_garbage_ignored ⟨[82, 117, 83, 116]⟩ [7] [1, 2, 3] rfl (by decide)
      (by decide)⟩

/-- Characterization of the byte validity check in terms of the ASCII letter
ranges. -/
lemma is_valid_bytes_iff (bs : List Nat) :
    ChunkType.is_valid_bytes bs = true ↔
      ∀ b ∈ bs, (65 ≤ b ∧ b ≤ 90) ∨ (97 ≤ b ∧ b ≤ 122) := by
  simp [ChunkType.is_valid_bytes, List.all_eq_true, Bool.or_eq_true,
    Bool.and_eq_true, decide_eq_true_eq]

/-- Branch form of the byte constructor. -/
lemma ChunkType.try_from_eq (bs : List Nat) :
    ChunkType.try_from bs =
      if ChunkType.is_valid_bytes bs = true then .ok ⟨bs⟩
      else .error .invalidChunkType := by
  unfold ChunkType.try_from
  cases hvb : ChunkType.is_valid_bytes bs <;> simp

/-- C5: construction from four raw bytes succeeds exactly when every byte is
an ASCII letter (65-90 or 97-122), failing with the invalid-chunk-type error
otherwise; `from_str` succeeds exactly on 4-character ASCII-letter strings,
and reports the wrong-length error exactly on strings whose length is not
4. -/
theorem chunk_type_validity :
    (∀ b0 b1 b2 b3 : Nat,
      ChunkType.try_from [b0, b1, b2, b3] =
        if ((65 ≤ b0 ∧ b0 ≤ 90) ∨ (97 ≤ b0 ∧ b0 ≤ 122)) ∧
            ((65 ≤ b1 ∧ b1 ≤ 90) ∨ (97 ≤ b1 ∧ b1 ≤ 122)) ∧
            ((65 ≤ b2 ∧ b2 ≤ 90) ∨ (97 ≤ b2 ∧ b2 ≤ 122)) ∧
            ((65 ≤ b3 ∧ b3 ≤ 90) ∨ (97 ≤ b3 ∧ b3 ≤ 122)) then
          .ok ⟨[b0, b1, b2, b3]⟩
        else .error .invalidChunkType) ∧
    (∀ s : List Nat,
      ((ChunkType.from_str s).isOk = true ↔
        s.length = 4 ∧ ∀ b ∈ s, (65 ≤ b ∧ b ≤ 90) ∨ (97 ≤ b ∧ b ≤ 122)) ∧
      (ChunkType.from_str s = .error .expectedFourBytes ↔ s.length ≠ 4)) := by
  constructor
  · intro b0 b1 b2 b3
    rw [ChunkType.try_from_eq]
    by_cases h : ((65 ≤ b0 ∧ b0 ≤ 90) ∨ (97 ≤ b0 ∧ b0 ≤ 122)) ∧
        ((65 ≤ b1 ∧ b1 ≤ 90) ∨ (97 ≤ b1 ∧ b1 ≤ 122)) ∧
        ((65 ≤ b2 ∧ b2 ≤ 90) ∨ (97 ≤ b2 ∧ b2 ≤ 122)) ∧
        ((65 ≤ b3 ∧ b3 ≤ 90) ∨ (97 ≤ b3 ∧ b3 ≤ 122))
    · have hv : ChunkType.is_valid_bytes [b0, b1, b2, b3] = true := by
        rw [is_valid_bytes_iff]
        intro b hb
        simp only [List.mem_cons, List.not_mem_nil, or_false] at hb
        rcases hb with rfl | rfl | rfl | rfl <;> tauto
      rw [if_pos hv, if_pos h]
    · have hv : ¬ ChunkType.is_valid_bytes [b0, b1, b2, b3] = true := by
        intro hvb
        apply h
        have hall := (is_valid_bytes_iff _).mp hvb
        exact ⟨hall b0 (by simp), hall b1 (by simp), hall b2 (by simp),
          hall b3 (by simp)⟩
      rw [if_neg hv, if_neg h]
  · intro s
    by_cases hs : s.length = 4
    · have htake : s.take 4 = s := by
        rw [← hs]
        exact List.take_length s
      constructor
      · rw [ChunkType.from_str, if_neg (by simp [hs]), htake,
          ChunkType.try_from_eq]
        cases hvb : ChunkType.is_valid_bytes s with
        | true =>
          rw [if_pos rfl]
          exact ⟨fun _ => ⟨hs, (is_valid_bytes_iff s).mp hvb⟩, fun _ => rfl⟩
        | false =>
          rw [if_neg (by simp)]
          constructor
          · intro hcontra
            simp [Except.isOk, Except.toBool] at hcontra
          · rintro ⟨_, hall⟩
            rw [(is_valid_bytes_iff s).mpr hall] at hvb
            exact Bool.noConfusion hvb
      · rw [ChunkType.from_str, if_neg (by simp [hs]), htake,
          ChunkType.try_from_eq]
        constructor
        · intro hcontra
          split at hcontra <;> simp at hcontra
        · intro hcontra
          exact absurd hs hcontra
    · constructor
      · rw [ChunkType.from_str, if_pos (by simpa using hs)]
        simp only [Except.isOk, Except.toBool]
        exact ⟨fun hcontra => Bool.noConfusion hcontra, fun hcon => absurd hcon.1 hs⟩
      · rw [ChunkType.from_str, if_pos (by simpa using hs)]
        simp [hs]

lemma and_bit5_eq_zero_iff (b : Nat) :
    (b &&& (1 <<< 5) == 0) = true ↔ b.testBit 5 = false := by
  have h32 : (1 <<< 5 : Nat) = 2 ^ 5 := by norm_num [Nat.shiftLeft_eq]
  rw [h32, beq_iff_eq, Nat.and_two_pow]
  cases hb : b.testBit 5 <;> simp

lemma and_bit5_ne_zero_iff (b : Nat) :
    (b &&& (1 <<< 5) != 0) = true ↔ b.testBit 5 = true := by
  have h32 : (1 <<< 5 : Nat) = 2 ^ 5 := by norm_num [Nat.shiftLeft_eq]
  rw [h32, bne_iff_ne, ne_eq, Nat.and_two_pow]
  cases hb : b.testBit 5 <;> simp

/-- C6: the four semantic predicates of a chunk type read bit 5 (`0x20`) of
its four bytes — critical, public and reserved-valid demand a clear bit,
safe-to-copy a set bit — and overall validity coincides with the reserved
bit being valid; concretely, `"RuSt"` is critical, not public,
reserved-valid and safe to copy, while `"Rust"` has an invalid reserved bit
and so is invalid. -/
theorem chunk_type_bit_predicates :
    (∀ b0 b1 b2 b3 : Nat,
      ((ChunkType.mk [b0, b1, b2, b3]).is_critical = true ↔
        b0.testBit 5 = false) ∧
      ((ChunkType.mk [b0, b1, b2, b3]).is_public = true ↔
        b1.testBit 5 = false) ∧
      ((ChunkType.mk [b0, b1, b2, b3]).is_reserved_bit_valid = true ↔
        b2.testBit 5 = false) ∧
      ((ChunkType.mk [b0, b1, b2, b3]).is_safe_to_copy = true ↔
        b3.testBit 5 = true) ∧
      (ChunkType.mk [b0, b1, b2, b3]).is_valid =
        (ChunkType.mk [b0, b1, b2, b3]).is_reserved_bit_valid) ∧
    ((ChunkType.mk [82, 117, 83, 116]).is_critical = true ∧
      (ChunkType.mk [82, 117, 83, 116]).is_public = false ∧
      (ChunkType.mk [82, 117, 83, 116]).is_reserved_bit_valid = true ∧
      (ChunkType.mk [82, 117, 83, 116]).is_safe_to_copy = true) ∧
    ((ChunkType.mk [82, 117, 115, 116]).is_reserved_bit_valid = false ∧
      (ChunkType.mk [82, 117, 115, 116]).is_valid = false) := by
  refine ⟨?_, by decide, by decide⟩
  intro b0 b1 b2 b3
  exact ⟨and_bit5_eq_zero_iff b0, and_bit5_eq_zero_iff b1,
    and_bit5_eq_zero_iff b2, and_bit5_ne_zero_iff b3, rfl⟩

/-- C7: the serialization of any chunk whose type code holds four bytes is
total and laid out as the 4 big-endian length bytes, the 4 type bytes, the
payload, then the 4 big-endian crc bytes, for a total of 12 bytes plus the
payload size. -/
theorem chunk_as_bytes_layout (len crcv : Nat) (d : List Nat)
    (b0 b1 b2 b3 : Nat) :
    (Chunk.mk len ⟨[b0, b1, b2, b3]⟩ d crcv).as_bytes.length = 12 + d.length ∧
    (Chunk.mk len ⟨[b0, b1, b2, b3]⟩ d crcv).as_bytes.take 4 =
      [len / 2 ^ 24 % 2 ^ 8, len / 2 ^ 16 % 2 ^ 8, len / 2 ^ 8 % 2 ^ 8,
        len % 2 ^ 8] ∧
    ((Chunk.mk len ⟨[b0, b1, b2, b3]⟩ d crcv).as_bytes.drop 4).take 4 =
      [b0, b1, b2, b3] ∧
    ((Chunk.mk len ⟨[b0, b1, b2, b3]⟩ d crcv).as_bytes.drop 8).take d.length =
      d ∧
    (Chunk.mk len ⟨[b0, b1, b2, b3]⟩ d crcv).as_bytes.drop (8 + d.length) =
      [crcv / 2 ^ 24 % 2 ^ 8, crcv / 2 ^ 16 % 2 ^ 8, crcv / 2 ^ 8 % 2 ^ 8,
        crcv % 2 ^ 8] := by
  have h0 : (Chunk.mk len ⟨[b0, b1, b2, b3]⟩ d crcv).as_bytes =
      u32_to_be_bytes len ++
        ([b0, b1, b2, b3] ++ (d ++ u32_to_be_bytes crcv)) := by
    simp [Chunk.as_bytes, List.append_assoc]
  have h1 : (Chunk.mk len ⟨[b0, b1, b2, b3]⟩ d crcv).as_bytes =
      (u32_to_be_bytes len ++ [b0, b1, b2, b3]) ++
        (d ++ u32_to_be_bytes crcv) := by
    simp [Chunk.as_bytes, List.append_assoc]
  have h2 : (Chunk.mk len ⟨[b0, b1, b2, b3]⟩ d crcv).as_bytes =
      ((u32_to_be_bytes len ++ [b0, b1, b2, b3]) ++ d) ++
        u32_to_be_bytes crcv := by
    simp [Chunk.as_bytes, List.append_assoc]
  refine ⟨?_, ?_, ?_, ?_, ?_⟩
  · rw [h0]
    simp [u32_to_be_bytes]
    omega
  · rw [h0, List.take_left' (u32_to_be_bytes_length _)]
    rfl
  · rw [h0, List.drop_left' (u32_to_be_bytes_length _),
      List.take_left' (show ([b0, b1, b2, b3] : List Nat).length = 4 from rfl)]
  · rw [h1, List.drop_left'
      (show (u32_to_be_bytes len ++ [b0, b1, b2, b3]).length = 8 by
        simp [u32_to_be_bytes]),
      List.take_left' rfl]
  · rw [h2, List.drop_left'
      (show ((u32_to_be_bytes len ++ [b0, b1, b2, b3]) ++ d).length =
          8 + d.length by
        simp [u32_to_be_bytes]
        omega)]
    rfl

/-- Inversion of the byte constructor. -/
lemma ChunkType.try_from_ok {bs : List Nat} {t : ChunkType}
    (h : ChunkType.try_from bs = .ok t) :
    t.bytes = bs ∧ ChunkType.is_valid_bytes bs = true := by
  rw [ChunkType.try_from_eq] at h
  split at h
  · next hv =>
    cases h
    exact ⟨rfl, hv⟩
  · simp at h

/-- Every chunk produced by the parser satisfies the structural invariants:
a 4-byte valid type code, a length field equal to the payload size and
bounded by `MAXIMUM_LENGTH`, and a crc equal to the recomputed checksum. -/
lemma Chunk.try_from_ok_wf {bytes : List Nat} {c : Chunk}
    (h : Chunk.try_from bytes = .ok c) :
    c.chunk_type.bytes.length = 4 ∧
    ChunkType.is_valid_bytes c.chunk_type.bytes = true ∧
    c.length = c.chunk_data.length ∧
    c.chunk_data.length ≤ MAXIMUM_LENGTH ∧
    c.crc = checksum_ieee (c.chunk_type.bytes ++ c.chunk_data) := by
  simp only [Chunk.try_from] at h
  split at h
  · simp at h
  · split at h
    · simp at h
    · split at h
      · simp at h
      · rename_i h1 h2 h3
        split at h
        · simp at h
        · rename_i ct heq
          split at h
          · simp at h
          · split at h
            · simp at h
            · split at h
              · simp at h
              · split at h
                · simp at h
                · rename_i h4 h5 h6 h7
                  cases h
                  obtain ⟨hbs, hvb⟩ := ChunkType.try_from_ok heq
                  have hlen4 : ((bytes.drop 4).take 4).length = 4 := by
                    rw [List.length_take, List.length_drop]
                    rw [List.length_drop] at h3
                    omega
                  refine ⟨by rw [hbs]; exact hlen4, by rw [hbs]; exact hvb,
                    ?_, ?_, ?_⟩
                  · simp only [List.length_take]
                    rw [List.length_drop, List.length_drop] at h4 ⊢
                    omega
                  · simp only [List.length_take]
                    rw [List.length_drop, List.length_drop] at h4 ⊢
                    omega
                  · simp only [not_not] at h7
                    exact h7.symm

/-- C4 (amended for the `u32` truncation in `Chunk::new`): every chunk the
parser produces satisfies both invariants — crc equal to the CRC-32 of the
type bytes concatenated with the payload, and length equal to the payload
size; `Chunk::new` always satisfies the crc invariant, stores the payload
size modulo `2 ^ 32`, and therefore satisfies the length invariant exactly
when the payload size is representable in 32 bits. -/
theorem chunk_invariants :
    (∀ bytes c, Chunk.try_from bytes = .ok c →
      c.crc = checksum_ieee (c.chunk_type.bytes ++ c.chunk_data) ∧
      c.length = c.chunk_data.length) ∧
    (∀ t d, (Chunk.new t d).crc = checksum_ieee (t.bytes ++ d) ∧
      (Chunk.new t d).length = d.length % 2 ^ 32 ∧
      (d.length < 2 ^ 32 → (Chunk.new t d).length = d.length)) := by
  constructor
  · intro bytes c h
    have wf := Chunk.try_from_ok_wf h
    exact ⟨wf.2.2.2.2, wf.2.2.1⟩
  · intro t d
    refine ⟨rfl, rfl, fun h => ?_⟩
    rw [Chunk.length_new]
    omega

/-- C4 counterexample: with a payload of `2 ^ 32` bytes, the chunk built by
`Chunk::new` stores length `0`, so its length field differs from the number
of payload bytes it holds. -/
theorem chunk_length_invariant_counterexample :
    (Chunk.new ⟨[82, 117, 83, 116]⟩ (List.replicate (2 ^ 32) 0)).length ≠
      (List.replicate (2 ^ 32) (0 : Nat)).length := by
  rw [Chunk.length_new, List.length_replicate]
  omega

/-- Witness for C4 at a concrete parsed chunk and at `Chunk::new` with the
type `"RuSt"` and payload `[7]`. -/
theorem chunk_invariants_witness :
    Chunk.try_from [0, 0, 0, 1, 82, 117, 83, 116, 7, 99, 221, 130, 160] =
      .ok ⟨1, ⟨[82, 117, 83, 116]⟩, [7], 1675461280⟩ ∧
    ((⟨1, ⟨[82, 117, 83, 116]⟩, [7], 1675461280⟩ : Chunk).crc =
        checksum_ieee ((⟨1, ⟨[82, 117, 83, 116]⟩, [7], 1675461280⟩ :
          Chunk).chunk_type.bytes ++
          (⟨1, ⟨[82, 117, 83, 116]⟩, [7], 1675461280⟩ : Chunk).chunk_data) ∧
      (⟨1, ⟨[82, 117, 83, 116]⟩, [7], 1675461280⟩ : Chunk).length =
        (⟨1, ⟨[82, 117, 83, 116]⟩, [7], 1675461280⟩ :
          Chunk).chunk_data.length) ∧
    (([7] : List Nat).length < 2 ^ 32 ∧
      (Chunk.new ⟨[82, 117, 83, 116]⟩ [7]).length = ([7] : List Nat).length) :=
  ⟨by decide,
    chunk_invariants.1 [0, 0, 0, 1, 82, 117, 83, 116, 7, 99, 221, 130, 160]
      ⟨1, ⟨[82, 117, 83, 116]⟩, [7], 1675461280⟩ (by decide),
    by norm_num,
    (chunk_invariants.2 ⟨[82, 117, 83, 116]⟩ [7]).2.2 (by norm_num)⟩

/-- C8: the parser never infers the payload size from the remaining buffer —
it fails with the end-of-input error exactly when the buffer is too short
for one of its four sequential reads (4 length bytes; 4 type bytes; the
declared number of payload bytes; 4 crc bytes), and in every failure case
the result is an error value, never a partial chunk. -/
theorem chunk_eof_characterization (bytes : List Nat) :
    Chunk.try_from bytes = .error .unexpectedEof ↔
      bytes.length < 4 ∨
      (u32_from_be_bytes (bytes.take 4) ≤ MAXIMUM_LENGTH ∧ bytes.length < 8) ∨
      (u32_from_be_bytes (bytes.take 4) ≤ MAXIMUM_LENGTH ∧
        (ChunkType.try_from ((bytes.drop 4).take 4)).isOk = true ∧
        bytes.length < 12 + u32_from_be_bytes (bytes.take 4)) := by
  simp only [Chunk.try_from]
  split
  · next h1 =>
    exact iff_of_true rfl (Or.inl h1)
  · next h1 =>
    split
    · next h2 =>
      apply iff_of_false
      · simp
      · rintro (hx | ⟨hL, _⟩ | ⟨hL, _, _⟩)
        · exact h1 hx
        · omega
        · omega
    · next h2 =>
      split
      · next h3 =>
        rw [List.length_drop] at h3
        exact iff_of_true rfl (Or.inr (Or.inl ⟨by omega, by omega⟩))
      · next h3 =>
        rw [List.length_drop] at h3
        split
        · next e heq =>
          have he : e = Err.invalidChunkType := by
            rw [ChunkType.try_from_eq] at heq
            split at heq
            · simp at heq
            · injection heq with h'
              exact h'.symm
          apply iff_of_false
          · simp [he]
          · rintro (hx | ⟨_, hx⟩ | ⟨_, hok, _⟩)
            · exact h1 hx
            · omega
            · rw [heq] at hok
              simp [Except.isOk, Except.toBool] at hok
        · next ct heq =>
          split
          · next h4 =>
            rw [List.length_drop, List.length_drop] at h4
            refine iff_of_true rfl (Or.inr (Or.inr ⟨by omega, ?_, by omega⟩))
            rw [heq]
            rfl
          · next h4 =>
            rw [List.length_drop, List.length_drop] at h4
            split
            · next h5 =>
              exfalso
              rw [List.length_take, List.length_drop, List.length_drop] at h5
              omega
            · next h5 =>
              split
              · next h6 =>
                rw [List.length_drop, List.length_drop, List.length_drop] at h6
                refine iff_of_true rfl
                  (Or.inr (Or.inr ⟨by omega, ?_, by omega⟩))
                rw [heq]
                rfl
              · next h6 =>
                rw [List.length_drop, List.length_drop, List.length_drop] at h6
                split
                · next h7 =>
                  apply iff_of_false
                  · simp
                  · rintro (hx | ⟨_, hx⟩ | ⟨_, _, hx⟩) <;> omega
                · next h7 =>
                  apply iff_of_false
                  · simp
                  · rintro (hx | ⟨_, hx⟩ | ⟨_, _, hx⟩) <;> omega

lemma Chunk.as_bytes_length (c : Chunk)
    (h4 : c.chunk_type.bytes.length = 4) :
    c.as_bytes.length = 12 + c.chunk_data.length := by
  simp [Chunk.as_bytes, u32_to_be_bytes, h4]
  omega

/-- Fuel-indexed induction: every chunk in a successful container parse
satisfies the structural invariants of `Chunk.try_from_ok_wf`. -/
lemma parseChunks_ok_wf_aux : ∀ (n : Nat) (bytes : List Nat),
    bytes.length ≤ n → ∀ (cs : List Chunk), parseChunks bytes = .ok cs →
    ∀ c ∈ cs, c.chunk_type.bytes.length = 4 ∧
      ChunkType.is_valid_bytes c.chunk_type.bytes = true ∧
      c.length = c.chunk_data.length ∧
      c.chunk_data.length ≤ MAXIMUM_LENGTH ∧
      c.crc = checksum_ieee (c.chunk_type.bytes ++ c.chunk_data) := by
  intro n
  induction n with
  | zero =>
    intro bytes hb cs h c hc
    have hnil : bytes = [] := List.eq_nil_of_length_eq_zero (by omega)
    subst hnil
    rw [parseChunks] at h
    simp at h
    subst h
    simp at hc
  | succ n ih =>
    intro bytes hb cs h c hc
    rw [parseChunks] at h
    split at h
    · injection h with h'
      subst h'
      simp at hc
    · rename_i hne
      split at h
      · simp at h
      · rename_i c0 heq0
        split at h
        · simp at h
        · rename_i cs0 heqrec
          injection h with h'
          subst h'
          rcases List.mem_cons.mp hc with rfl | hc2
          · exact Chunk.try_from_ok_wf heq0
          · refine ih (bytes.drop (12 + c0.chunk_data.length)) ?_ cs0 heqrec
              c hc2
            rw [List.length_drop]
            have hpos : 0 < bytes.length := by
              cases bytes with
              | nil => simp at hne
              | cons x xs => simp
            omega

lemma parseChunks_ok_wf {bytes : List Nat} {cs : List Chunk}
    (h : parseChunks bytes = .ok cs) :
    ∀ c ∈ cs, c.chunk_type.bytes.length = 4 ∧
      ChunkType.is_valid_bytes c.chunk_type.bytes = true ∧
      c.length = c.chunk_data.length ∧
      c.chunk_data.length ≤ MAXIMUM_LENGTH ∧
      c.crc = checksum_ieee (c.chunk_type.bytes ++ c.chunk_data) :=
  parseChunks_ok_wf_aux bytes.length bytes le_rfl cs h

/-- Serializing a list of structurally sound chunks and parsing the result
recovers the same list. -/
lemma parseChunks_flatten : ∀ (cs : List Chunk),
    (∀ c ∈ cs, c.chunk_type.bytes.length = 4 ∧
      ChunkType.is_valid_bytes c.chunk_type.bytes = true ∧
      c.length = c.chunk_data.length ∧
      c.chunk_data.length ≤ MAXIMUM_LENGTH ∧
      c.crc = checksum_ieee (c.chunk_type.bytes ++ c.chunk_data)) →
    parseChunks ((cs.map Chunk.as_bytes).flatten) = .ok cs := by
  intro cs
  induction cs with
  | nil =>
    intro _
    rw [parseChunks]
    simp
  | cons c cs ih =>
    intro hwf
    obtain ⟨h4, hv, hlen, hmax, hcrc⟩ := hwf c (by simp)
    obtain ⟨L, T, D, R⟩ := c
    obtain ⟨tb⟩ := T
    simp only at h4 hv hlen hmax hcrc
    subst hlen
    have hser : (Chunk.mk D.length ⟨tb⟩ D R).as_bytes ++
          ((cs.map Chunk.as_bytes).flatten) =
        u32_to_be_bytes D.length ++ (tb ++ (D ++ (u32_to_be_bytes R ++
          ((cs.map Chunk.as_bytes).flatten)))) := by
      simp [Chunk.as_bytes, List.append_assoc]
    rw [List.map_cons, List.flatten_cons, hser, parseChunks]
    rw [dif_neg (by simp [u32_to_be_bytes])]
    have hfr := Chunk.try_from_frame tb D ((cs.map Chunk.as_bytes).flatten) R
      h4 hv hmax (hcrc ▸ checksum_ieee_lt _)
    rw [if_pos hcrc.symm] at hfr
    rw [hfr]
    have hdrop : (u32_to_be_bytes D.length ++ (tb ++ (D ++ (u32_to_be_bytes R ++
          ((cs.map Chunk.as_bytes).flatten))))).drop (12 + D.length) =
        (cs.map Chunk.as_bytes).flatten := by
      rw [← hser]
      exact List.drop_left'
        (Chunk.as_bytes_length (Chunk.mk D.length ⟨tb⟩ D R) h4)
    simp only []
    rw [hdrop, ih (fun c hc => hwf c (List.mem_cons_of_mem _ hc))]

/-- C2: parsing the serialization of any successfully parsed container
yields the same container — same chunk count, same types, same data, in the
same order (the container model follows the spec; png.rs is absent from the
sources). -/
theorem png_roundtrip (bytes : List Nat) (p : Png)
    (h : Png.try_from bytes = .ok p) :
    Png.try_from p.as_bytes = .ok p := by
  unfold Png.try_from at h
  split at h
  · simp at h
  · rename_i hsig
    split at h
    · simp at h
    · rename_i cs heqp
      injection h with h'
      subst h'
      have hwf := parseChunks_ok_wf heqp
      unfold Png.try_from Png.as_bytes
      rw [if_neg (by
        rw [List.take_left' (show PNG_SIGNATURE.length = 8 from rfl)]
        simp)]
      rw [List.drop_left' (show PNG_SIGNATURE.length = 8 from rfl)]
      rw [parseChunks_flatten cs hwf]

/-- Witness for C2 at the empty container (the bare signature). -/
theorem png_roundtrip_witness :
    Png.try_from PNG_SIGNATURE = .ok (Png.mk []) ∧
    Png.try_from (Png.mk []).as_bytes = .ok (Png.mk []) := by
  have h : Png.try_from PNG_SIGNATURE = .ok (Png.mk []) := by
    unfold Png.try_from
    rw [if_neg (by simp [PNG_SIGNATURE])]
    rw [show PNG_SIGNATURE.drop 8 = [] from rfl]
    rw [parseChunks]
    simp
  exact ⟨h, png_roundtrip PNG_SIGNATURE (Png.mk []) h⟩
